import Mathlib

/-!
Shallow embedding of the `debris` HTML-scraping helper library
(`src/lib.rs`, `src/arena_cache.rs`) and proofs about its behaviour.

External collaborators (the HTML parser `scraper::Html::parse_document`,
the CSS-selector engine, and Rust `std` string utilities) are modelled
from their narrow contracts: a parsed document is an ego-tree whose
true root is a non-element `Document` node and whose element, text and
comment nodes hang below it, the root element (`root_element()`) being
a child of that `Document` node; a compiled selector,
evaluated against a subtree root, yields the ordered (document-order)
sequence of strict-descendant elements matching it.  Selectors are kept
opaque strings and the matcher is modelled minimally as tag-name
equality; nothing below depends on the matching discipline beyond
"ordered sequence of matching elements".
-/

namespace Debris

/-- Model of the parsed document tree handed over by the external HTML
parser: an element has a tag name, attributes and an ordered list of
child nodes; leaves are text chunks and comments.  `document` is the
payload-free `Node::Document` value sitting at the very top of an
ego-tree built by `Html::parse_document`; it is never an element, so
`ElementRef::wrap` rejects it and no query ever denotes it. -/
inductive HNode : Type where
  | element (name : String) (attrs : List (String × String)) (children : List HNode)
  | text (s : String)
  | comment (s : String)
  | document
deriving Repr

/-- Children of a node (`NodeRef::children`); non-elements have none. -/
def HNode.children : HNode → List HNode
  | .element _ _ cs => cs
  | _ => []

/-- Whether the node is an element (`Node::is_element`, the test behind
`ElementRef::wrap`). -/
def HNode.isElement : HNode → Bool
  | .element _ _ _ => true
  | _ => false

/-- Model of `Node::as_text`: the raw text of a text node. -/
def HNode.asText : HNode → Option String
  | .text s => some s
  | _ => none

/-- Attribute lookup on an element (`Element::attr`). -/
def HNode.attrOf (key : String) : HNode → Option String
  | .element _ attrs _ => attrs.lookup key
  | _ => none

/-- Serialisation of the attribute list inside a start tag. -/
def attrsHtml : List (String × String) → String
  | [] => ""
  | (k, v) :: rest => " " ++ k ++ "=" ++ "\"" ++ v ++ "\"" ++ attrsHtml rest

mutual

/-- Model of `ElementRef::html` / the external serialiser: render the
subtree rooted at this node back to markup text. -/
def HNode.html : HNode → String
  | .text s => s
  | .comment s => "<!--" ++ s ++ "-->"
  | .element name attrs children => "<" ++ name ++ attrsHtml attrs ++ ">" ++ htmlList children ++ "</" ++ name ++ ">"
  | .document => ""

/-- Renders a list of sibling nodes in order. -/
def htmlList : List HNode → String
  | [] => ""
  | c :: cs => c.html ++ htmlList cs

end

mutual

/-- Concatenation of all descendant text chunks in document order:
model of iterating `ElementRef::text` in `Node::text`. -/
def HNode.textConcat : HNode → String
  | .text s => s
  | .comment _ => ""
  | .element _ _ children => textConcatList children
  | .document => ""

/-- Text concatenation over a list of sibling subtrees. -/
def textConcatList : List HNode → String
  | [] => ""
  | c :: cs => c.textConcat ++ textConcatList cs

end

mutual

/-- Accumulation of `Node::text_multiline`: walk all descendants
(preorder, self included), keep text chunks, turn each `<br>` element
into a newline, and ignore every other non-text node. -/
def HNode.mlConcat : HNode → String
  | .text s => s
  | .comment _ => ""
  | .element name _ children => (if name == "br" then "\n" else "") ++ mlConcatList children
  | .document => ""

/-- Multiline-text accumulation over a list of sibling subtrees. -/
def mlConcatList : List HNode → String
  | [] => ""
  | c :: cs => c.mlConcat ++ mlConcatList cs

end

/-- Whether an element node matches a selector string.  The CSS engine
is external; it is modelled minimally as tag-name equality, which is
all the library observes of it ("ordered sequence of matching
elements"). -/
def isMatch (sel : String) : HNode → Bool
  | .element name _ _ => name == sel
  | _ => false

mutual

/-- Matching strict descendants contributed by a sibling list starting
at child index `i`: each child (if it matches) followed by its own
matching descendants, then the later siblings — document (preorder)
order, as produced by `scraper`'s `Select` iterator. Each match is
returned as (path relative to the subtree root, matched element). -/
def childMatches (sel : String) (i : Nat) : List HNode → List (List Nat × HNode)
  | [] => []
  | c :: cs =>
      (if isMatch sel c then [([i], c)] else [])
        ++ (nodeMatches sel c).map (fun m => (i :: m.1, m.2))
        ++ childMatches sel (i + 1) cs

/-- Model of `ElementRef::select`: ordered matches among the strict
descendants of a node. -/
def nodeMatches (sel : String) : HNode → List (List Nat × HNode)
  | .element _ _ children => childMatches sel 0 children
  | _ => []

end

/-- Model of the `Document` struct: it owns the parsed tree.  `root` is
the tree's root element (`Html::root_element`).  The compiled-selector
cache it also owns is semantically transparent (see `ArenaCache` below,
whose theorem shows a cached query returns exactly what the computation
returns), so selector compilation needs no state here. -/
structure Doc : Type where
  root : HNode
deriving Repr

/-- Node lookup by path (list of child indices) from the root element:
the positional part of an `ElementRef`. -/
def HNode.atPath : HNode → List Nat → Option HNode
  | n, [] => some n
  | n, i :: p =>
      match n.children.get? i with
      | some c => c.atPath p
      | none => none

/-- The `Operation` enum of `lib.rs`. -/
inductive Operation : Type where
  | find (selector : String)
  | findAll (selector : String) (index : Nat)
  | findFirst (selector : String)
  | findNth (selector : String) (index : Nat)
  | child (index : Nat)
  | childText (index : Nat)
  | parent
  | text
  | textMultiline
  | attr (key : String)
  | parse
  | external
deriving Repr, DecidableEq

/-- The `Reason` enum of `lib.rs`; the boxed foreign error of
`External` is modelled by its display string. -/
inductive Reason : Type where
  | notFound
  | multipleFound
  | expectedElement
  | expectedText
  | external (msg : String)
deriving Repr, DecidableEq

/-- The `Node` struct of `lib.rs`: owning document, optional source
node (the derivation chain), the operation that produced it, and the
element it denotes — kept as its path from the root element plus the
subtree at that path (the two faces of an `ElementRef`).  The `base`
constructor is the `source = None` case, `step` the `source = Some`
case. -/
inductive DNode : Type where
  | base (document : Doc) (operation : Operation) (path : List Nat) (elem : HNode)
  | step (document : Doc) (source : DNode) (operation : Operation) (path : List Nat) (elem : HNode)
deriving Repr

/-- The `document` field. -/
def DNode.document : DNode → Doc
  | .base d _ _ _ => d
  | .step d _ _ _ _ => d

/-- The `source` field. -/
def DNode.source : DNode → Option DNode
  | .base _ _ _ _ => none
  | .step _ s _ _ _ => some s

/-- The `operation` field. -/
def DNode.operation : DNode → Operation
  | .base _ op _ _ => op
  | .step _ _ op _ _ => op

/-- The path of the denoted element. -/
def DNode.path : DNode → List Nat
  | .base _ _ p _ => p
  | .step _ _ _ p _ => p

/-- The subtree of the denoted element. -/
def DNode.elem : DNode → HNode
  | .base _ _ _ e => e
  | .step _ _ _ _ e => e

/-- Builds a `Node` from its four fields, picking the constructor that
matches the optional source — the Rust struct literal
`Node { document, source, operation, element }`. -/
def mkDNode (d : Doc) (src : Option DNode) (op : Operation) (p : List Nat) (e : HNode) : DNode :=
  match src with
  | none => .base d op p e
  | some s => .step d s op p e

/-- The `Text` struct of `lib.rs`: a materialised string value plus the
producing operation and the node it came from. -/
structure TextVal : Type where
  document : Doc
  source : DNode
  operation : Operation
  value : String
deriving Repr

/-- The `Error` struct of `lib.rs` (the backtrace field is external
diagnostics and carries no behaviour). -/
structure EError : Type where
  reason : Reason
  operations : List Operation
  snapshots : List String
deriving Repr, DecidableEq

/-- The three implementors of the `Context` trait: `Document`, `Node`
and `Text`. -/
inductive Ctx : Type where
  | doc (d : Doc)
  | node (n : DNode)
  | text (t : TextVal)

/-- `Context::get_document`. -/
def Ctx.get_document : Ctx → Doc
  | .doc d => d
  | .node n => n.document
  | .text t => t.document

/-- `Context::get_source`. -/
def Ctx.get_source : Ctx → Option DNode
  | .doc _ => none
  | .node n => n.source
  | .text t => some t.source

/-- `Context::get_operation`. -/
def Ctx.get_operation : Ctx → Option Operation
  | .doc _ => none
  | .node n => some n.operation
  | .text t => some t.operation

/-- `Context::get_as_source`: only a `Node` offers itself as a source
(a `Text` is a leaf of the chain, a `Document` is the root). -/
def Ctx.get_as_source : Ctx → Option DNode
  | .doc _ => none
  | .node n => some n
  | .text _ => none

/-- `Context::collect_operations` specialised to a `Node` receiver (the
recursion of the trait method always goes through `&Node` sources):
the source chain's operations in root-to-leaf order, own operation
last. -/
def DNode.collectOps : DNode → List Operation
  | .base _ op _ _ => [op]
  | .step _ s op _ _ => s.collectOps ++ [op]

/-- `Context::collect_operations`: operations of the source chain
(root-to-leaf), then the receiver's own operation if it has one. -/
def Ctx.collect_operations : Ctx → List Operation
  | .doc _ => []
  | .node n => n.collectOps
  | .text t => t.source.collectOps ++ [t.operation]

/-- `Context::collect_snapshots` specialised to a `Node` receiver: the
document root's rendering, then each chain element's rendering,
root-to-leaf. -/
def DNode.collectSnaps : DNode → List String
  | .base d _ _ e => [d.root.html, e.html]
  | .step _ s _ _ e => s.collectSnaps ++ [e.html]

/-- `Context::collect_snapshots`. -/
def Ctx.collect_snapshots : Ctx → List String
  | .doc d => [d.root.html]
  | .node n => n.collectSnaps
  | .text t => t.source.collectSnaps

/-- `Context::make_error`: collected chain operations with the failing
operation pushed last, plus the chain snapshots. -/
def Ctx.make_error (c : Ctx) (reason : Reason) (operation : Operation) : EError :=
  { reason
    operations := c.collect_operations ++ [operation]
    snapshots := c.collect_snapshots }


/-- Model of `char::is_whitespace` as observed through `str::trim`. -/
def isWs (c : Char) : Bool := c.isWhitespace

/-- Model of `str::trim`: drop whitespace from the front, then from the
back (via reverse). -/
def trimChars (cs : List Char) : List Char :=
  (((cs.dropWhile isWs).reverse.dropWhile isWs)).reverse

/-- `str::trim` on strings. -/
def trimStr (s : String) : String := String.mk (trimChars s.data)

/-- The `Collection` struct: source context, selector, the remaining
matches of the underlying `Select` iterator (absolute paths), and the
running index. -/
structure Collection : Type where
  document : Doc
  source : Option DNode
  selector : String
  iterator : List (List Nat × HNode)
  index : Nat

/-- `Find::find_all` for `Document`: all matches under the root
element, running index starting at 0. -/
def Doc.find_all (d : Doc) (selector : String) : Collection :=
  { document := d, source := none, selector
    iterator := nodeMatches selector d.root, index := 0 }

/-- `Find::find_all` for `Node`: all matches under this element (paths
made absolute), source set to this node, running index starting
at 0. -/
def DNode.find_all (n : DNode) (selector : String) : Collection :=
  { document := n.document, source := some n, selector
    iterator := (nodeMatches selector n.elem).map (fun m => (n.path ++ m.1, m.2))
    index := 0 }

/-- Body of the provided trait method `Find::find`: pull at most two
items from the raw `Select` iterator; succeed only when there is
exactly one. -/
def findCore (c : Ctx) (fa : Collection) (sel : String) : Except EError DNode :=
  match fa.iterator with
  | [m] => .ok (mkDNode c.get_document c.get_as_source (.find sel) m.1 m.2)
  | _ :: _ :: _ => .error (c.make_error .multipleFound (.find sel))
  | [] => .error (c.make_error .notFound (.find sel))

/-- Body of the provided trait method `Find::find_first`. -/
def findFirstCore (c : Ctx) (fa : Collection) (sel : String) : Except EError DNode :=
  match fa.iterator.head? with
  | some m => .ok (mkDNode c.get_document c.get_as_source (.findFirst sel) m.1 m.2)
  | none => .error (c.make_error .notFound (.findFirst sel))

/-- Body of the provided trait method `Find::find_nth`
(`iterator.nth(index)`). -/
def findNthCore (c : Ctx) (fa : Collection) (sel : String) (index : Nat) : Except EError DNode :=
  match fa.iterator.get? index with
  | some m => .ok (mkDNode c.get_document c.get_as_source (.findNth sel index) m.1 m.2)
  | none => .error (c.make_error .notFound (.findNth sel index))

/-- `Document::find`. -/
def Doc.find (d : Doc) (sel : String) : Except EError DNode :=
  findCore (.doc d) (d.find_all sel) sel

/-- `Node::find`. -/
def DNode.find (n : DNode) (sel : String) : Except EError DNode :=
  findCore (.node n) (n.find_all sel) sel

/-- `Document::find_first`. -/
def Doc.find_first (d : Doc) (sel : String) : Except EError DNode :=
  findFirstCore (.doc d) (d.find_all sel) sel

/-- `Node::find_first`. -/
def DNode.find_first (n : DNode) (sel : String) : Except EError DNode :=
  findFirstCore (.node n) (n.find_all sel) sel

/-- `Document::find_nth`. -/
def Doc.find_nth (d : Doc) (sel : String) (index : Nat) : Except EError DNode :=
  findNthCore (.doc d) (d.find_all sel) sel index

/-- `Node::find_nth`. -/
def DNode.find_nth (n : DNode) (sel : String) (index : Nat) : Except EError DNode :=
  findNthCore (.node n) (n.find_all sel) sel index

/-- `Collection`'s `Iterator::next`: take the next underlying match,
wrap it as a node tagged `FindAll { selector, index }` with the current
running index, then advance the index. -/
def Collection.next (c : Collection) : Option (DNode × Collection) :=
  match c.iterator with
  | [] => none
  | m :: rest =>
      some (mkDNode c.document c.source (.findAll c.selector c.index) m.1 m.2,
            { c with iterator := rest, index := c.index + 1 })

/-- The nodes yielded by draining a collection whose remaining matches
are `ms` and whose running index is `i`. -/
def itemsFrom (d : Doc) (src : Option DNode) (sel : String) : List (List Nat × HNode) → Nat → List DNode
  | [], _ => []
  | m :: rest, i => mkDNode d src (.findAll sel i) m.1 m.2 :: itemsFrom d src sel rest (i + 1)

/-- All nodes yielded by iterating a collection to exhaustion. -/
def Collection.items (c : Collection) : List DNode :=
  itemsFrom c.document c.source c.selector c.iterator c.index

/-- `Node::child`: the `index`-th child node, wrapped as an element
(`ElementRef::wrap` fails with `ExpectedElement` on a non-element). -/
def DNode.child (n : DNode) (index : Nat) : Except EError DNode :=
  match n.elem.children.get? index with
  | some nd =>
      if nd.isElement then
        .ok (mkDNode n.document (some n) (.child index) (n.path ++ [index]) nd)
      else .error ((Ctx.node n).make_error .expectedElement (.child index))
  | none => .error ((Ctx.node n).make_error .notFound (.child index))

/-- `Node::text_child`: the `index`-th child as raw text, trimmed; note
the source tags the no-child failure with `Child`, not `ChildText`. -/
def DNode.text_child (n : DNode) (index : Nat) : Except EError TextVal :=
  match n.elem.children.get? index with
  | some nd =>
      match nd.asText with
      | some s =>
          .ok { document := n.document, source := n, operation := .childText index
                value := trimStr s }
      | none => .error ((Ctx.node n).make_error .expectedText (.childText index))
  | none => .error ((Ctx.node n).make_error .notFound (.child index))

/-- Model of `ElementRef::parent` over a tree built by
`Html::parse_document`: every node of such an ego-tree has a parent —
one step up the path for a non-root element, and for the root element
the tree's own root, the non-element `Document` node above it.  (The
path component of that last pair is a placeholder: `ElementRef::wrap`
rejects the `Document` node, so it is never addressed.)  `none` can
only arise from a dangling path, never for a node of a parsed
document — which makes the `NotFound` arm of `Node::parent` dead code
there. -/
def parentLookup (d : Doc) (p : List Nat) : Option (List Nat × HNode) :=
  match p with
  | [] => some ([], HNode.document)
  | _ :: _ => (d.root.atPath p.dropLast).map (fun e => (p.dropLast, e))

/-- `Node::parent`. -/
def DNode.parent (n : DNode) : Except EError DNode :=
  match parentLookup n.document n.path with
  | some m =>
      if m.2.isElement then .ok (mkDNode n.document (some n) .parent m.1 m.2)
      else .error ((Ctx.node n).make_error .expectedElement .parent)
  | none => .error ((Ctx.node n).make_error .notFound .parent)

/-- `Node::text`: concatenate all descendant text chunks, trim. -/
def DNode.text (n : DNode) : TextVal :=
  { document := n.document, source := n, operation := .text
    value := trimStr n.elem.textConcat }

/-- `Node::text_multiline`: walk descendants, keep text, render `<br>`
as a newline, trim. -/
def DNode.text_multiline (n : DNode) : TextVal :=
  { document := n.document, source := n, operation := .textMultiline
    value := trimStr n.elem.mlConcat }

/-- `Node::attr`: the raw stored attribute value, untrimmed. -/
def DNode.attr (n : DNode) (key : String) : Except EError TextVal :=
  match n.elem.attrOf key with
  | some v =>
      .ok { document := n.document, source := n, operation := .attr key, value := v }
  | none => .error ((Ctx.node n).make_error .notFound (.attr key))

/-- `Text::parse::<T>`: apply the external `FromStr` conversion (passed
in as a function, as Rust passes the trait impl); wrap a conversion
failure as `External` tagged `Parse`. -/
def TextVal.parse (t : TextVal) (fromStr : String → Except String α) : Except EError α :=
  match fromStr t.value with
  | .ok v => .ok v
  | .error msg => .error ((Ctx.text t).make_error (.external msg) .parse)

/-- Numeric value of a list of decimal digit characters. -/
def digitsVal (ds : List Char) : Nat :=
  ds.foldl (fun acc c => 10 * acc + (c.toNat - 48)) 0

/-- Model of `<i64 as FromStr>::from_str`: an optional sign followed by
one or more ASCII digits and nothing else — in particular surrounding
whitespace is rejected.  (Overflow is out of range for every input used
here and left unmodelled.) -/
def parseI64 (s : String) : Except String Int :=
  let core : Int → List Char → Except String Int := fun sign ds =>
    if ds ≠ [] ∧ ds.all Char.isDigit then .ok (sign * (digitsVal ds : Int))
    else .error "invalid digit found in string"
  match s.data with
  | '+' :: ds => core 1 ds
  | '-' :: ds => core (-1) ds
  | ds => core 1 ds

/-- `fmt_multiple`. -/
def fmt_multiple (n : Nat) : String :=
  match n with
  | 1 => "1st"
  | 2 => "2nd"
  | 3 => "3rd"
  | _ => toString n ++ "th"

/-- `Display for Reason`. -/
def Reason.display : Reason → String
  | .notFound => "not found"
  | .multipleFound => "found too many"
  | .expectedElement => "expected element"
  | .expectedText => "expected text"
  | .external msg => msg

/-- `Display for Operation`. -/
def Operation.display : Operation → String
  | .find selector => "'" ++ selector ++ "'"
  | .findAll selector index => fmt_multiple index ++ " of '" ++ selector ++ "'"
  | .findFirst selector => "first '" ++ selector ++ "'"
  | .findNth selector index => fmt_multiple index ++ " '" ++ selector ++ "'"
  | .child index => fmt_multiple index ++ " child"
  | .childText index => fmt_multiple index ++ " child text"
  | .parent => "parent"
  | .text => "text"
  | .textMultiline => "multiline text"
  | .attr key => "attr '" ++ key ++ "'"
  | .parse => "parse"
  | .external => "external"

/-- `Display for Error`: the reason, a space, then the operations in
reverse order joined by spaces. -/
def EError.display (e : EError) : String :=
  e.reason.display ++ " " ++ String.intercalate " " (e.operations.reverse.map Operation.display)

/-- The `ArenaCache` of `arena_cache.rs`, its `HashMap<K, Box<V>>`
modelled as an association list (reference stability of the boxed
values is a memory-layout concern outside the embedding). -/
structure ArenaCache (K V : Type) : Type where
  entries : List (K × V)

/-- `HashMap::get`-style lookup on the entry list. -/
def entLookup [DecidableEq K] : List (K × V) → K → Option V
  | [], _ => none
  | (k₁, v) :: es, k => if k = k₁ then some v else entLookup es k

/-- `ArenaCache::new`. -/
def ArenaCache.new (K V : Type) : ArenaCache K V := ⟨[]⟩

/-- `ArenaCache::query`, instrumented with a Boolean recording whether
the computation closure was invoked (the spec's "computation-counting
probe"): if the key is absent, invoke `computation` and insert the
result; otherwise return the stored value untouched. -/
def ArenaCache.query [DecidableEq K] (c : ArenaCache K V) (key : K) (computation : K → V) :
    V × Bool × ArenaCache K V :=
  match entLookup c.entries key with
  | none =>
      let value := computation key
      (value, true, ⟨c.entries ++ [(key, value)]⟩)
  | some v => (v, false, c)

/-- One observed cache query: the key asked for, the value handed back,
and whether the computation closure ran. -/
structure QueryEvent (K V : Type) : Type where
  key : K
  value : V
  invoked : Bool

/-- Runs a sequence of queries against a cache, returning the observed
events in order together with the final cache. -/
def runQueries [DecidableEq K] (c : ArenaCache K V) :
    List (K × (K → V)) → List (QueryEvent K V) × ArenaCache K V
  | [] => ([], c)
  | (k, f) :: qs =>
      let r := c.query k f
      let rest := runQueries r.2.2 qs
      (⟨k, r.1, r.2.1⟩ :: rest.1, rest.2)

/-- A string with no leading and no trailing whitespace — the
observable meaning of "trimmed". -/
def noEdgeWs (s : String) : Bool :=
  !(s.data.head?.any isWs) && !(s.data.getLast?.any isWs)

/-- The elements denoted by the derivation chain of a node, from the
root-most chain node down to the node itself. -/
def DNode.chainElems : DNode → List HNode
  | .base _ _ _ e => [e]
  | .step _ s _ _ e => s.chainElems ++ [e]

/-- `n` is reached from the document root of `d` by the listed chain of
successful query operations, each step being one of the library's
node-producing queries (`find`, `find_first`, `find_nth`, a yield of
`find_all`, `child`, `parent`). -/
inductive Reaches : Doc → List Operation → DNode → Prop where
  | docFind (d : Doc) (sel : String) (n : DNode) :
      d.find sel = .ok n → Reaches d [.find sel] n
  | docFindFirst (d : Doc) (sel : String) (n : DNode) :
      d.find_first sel = .ok n → Reaches d [.findFirst sel] n
  | docFindNth (d : Doc) (sel : String) (i : Nat) (n : DNode) :
      d.find_nth sel i = .ok n → Reaches d [.findNth sel i] n
  | docFindAllItem (d : Doc) (sel : String) (j : Nat) (n : DNode) :
      (d.find_all sel).items.get? j = some n → Reaches d [.findAll sel j] n
  | nodeFind (d : Doc) (ops : List Operation) (m : DNode) (sel : String) (n : DNode) :
      Reaches d ops m → m.find sel = .ok n → Reaches d (ops ++ [.find sel]) n
  | nodeFindFirst (d : Doc) (ops : List Operation) (m : DNode) (sel : String) (n : DNode) :
      Reaches d ops m → m.find_first sel = .ok n → Reaches d (ops ++ [.findFirst sel]) n
  | nodeFindNth (d : Doc) (ops : List Operation) (m : DNode) (sel : String) (i : Nat) (n : DNode) :
      Reaches d ops m → m.find_nth sel i = .ok n → Reaches d (ops ++ [.findNth sel i]) n
  | nodeFindAllItem (d : Doc) (ops : List Operation) (m : DNode) (sel : String) (j : Nat) (n : DNode) :
      Reaches d ops m → (m.find_all sel).items.get? j = some n →
      Reaches d (ops ++ [.findAll sel j]) n
  | nodeChild (d : Doc) (ops : List Operation) (m : DNode) (i : Nat) (n : DNode) :
      Reaches d ops m → m.child i = .ok n → Reaches d (ops ++ [.child i]) n
  | nodeParent (d : Doc) (ops : List Operation) (m : DNode) (n : DNode) :
      Reaches d ops m → m.parent = .ok n → Reaches d (ops ++ [.parent]) n

/-- Fixture: an `<li class="x">` item. -/
def liX (t : String) : HNode := .element "li" [("class", "x")] [.text t]

/-- Fixture: `<ul><li class="x">5</li><li class="x">6</li></ul>`. -/
def ulElem : HNode := .element "ul" [] [liX "5", liX "6"]

/-- Fixture: `<span pad=" x "> 42 </span>`. -/
def numElem : HNode := .element "span" [("pad", " x ")] [.text " 42 "]

/-- Fixture document: an `<html>` root holding `ulElem` and
`numElem`. -/
def sampleDoc : Doc := ⟨.element "html" [] [ulElem, numElem]⟩

/-- Fixture node: the unique `ul` of `sampleDoc`, as found by
`find "ul"`. -/
def ulNode : DNode := .base sampleDoc (.find "ul") [0] ulElem

/-- Fixture node: the unique `span` of `sampleDoc`, as found by
`find "span"`. -/
def numNode : DNode := .base sampleDoc (.find "span") [1] numElem

/-- Fixture node: the root element of `sampleDoc`, as produced by
`parent()` on `ulNode`. -/
def rootNd : DNode := .step sampleDoc ulNode .parent [] sampleDoc.root

theorem mkDNode_operation (d : Doc) (src : Option DNode) (op : Operation) (p : List Nat) (e : HNode) :
    (mkDNode d src op p e).operation = op := by
  cases src <;> rfl

theorem mkDNode_elem (d : Doc) (src : Option DNode) (op : Operation) (p : List Nat) (e : HNode) :
    (mkDNode d src op p e).elem = e := by
  cases src <;> rfl

theorem mkDNode_document (d : Doc) (src : Option DNode) (op : Operation) (p : List Nat) (e : HNode) :
    (mkDNode d src op p e).document = d := by
  cases src <;> rfl

theorem mkDNode_collectOps (d : Doc) (src : Option DNode) (op : Operation) (p : List Nat) (e : HNode) :
    (mkDNode d src op p e).collectOps =
      (match src with | none => [] | some s => s.collectOps) ++ [op] := by
  cases src <;> rfl

theorem mkDNode_collectSnaps (d : Doc) (src : Option DNode) (op : Operation) (p : List Nat) (e : HNode) :
    (mkDNode d src op p e).collectSnaps =
      (match src with | none => [d.root.html] | some s => s.collectSnaps) ++ [e.html] := by
  cases src <;> rfl

theorem mkDNode_chainElems (d : Doc) (src : Option DNode) (op : Operation) (p : List Nat) (e : HNode) :
    (mkDNode d src op p e).chainElems =
      (match src with | none => [] | some s => s.chainElems) ++ [e] := by
  cases src <;> rfl

theorem make_error_operations (c : Ctx) (r : Reason) (op : Operation) :
    (c.make_error r op).operations = c.collect_operations ++ [op] := rfl

theorem make_error_reason (c : Ctx) (r : Reason) (op : Operation) :
    (c.make_error r op).reason = r := rfl

theorem make_error_snapshots (c : Ctx) (r : Reason) (op : Operation) :
    (c.make_error r op).snapshots = c.collect_snapshots := rfl

/-- Claim C9: for every error built by the error-construction protocol
(`Context::make_error`, which all failing methods call), the `Display`
rendering is the reason's display text followed by the operation
descriptions in reverse order — the failing, leaf-most operation first
and the root-most operation last — joined by single spaces. -/
theorem error_display_reason_then_reversed_chain (c : Ctx) (r : Reason) (op : Operation) :
    (c.make_error r op).display =
      r.display ++ " " ++
        String.intercalate " " ((op :: c.collect_operations.reverse).map Operation.display) := by
  simp [EError.display, Ctx.make_error]

/-- Claim C4 (code bug): the spec promises that `parent()` fails
`NotFound` at the tree root, and `Node::parent` indeed carries a
`None => NotFound` arm for a missing parent; but in a tree built by
`Html::parse_document` the root element's parent is the non-element
`Document` node, so at the root element the code takes the
`Some`/`ElementRef::wrap` failure path and fails `ExpectedElement` —
the `NotFound` arm is unreachable there.  This theorem evaluates the
code at the failing input: a node denoting the root element. -/
theorem parent_of_root_expectedElement (n : DNode) (h : n.path = []) :
    ∃ e, n.parent = .error e ∧ e.reason = .expectedElement ∧
      e.operations.getLast? = some .parent := by
  refine ⟨(Ctx.node n).make_error .expectedElement .parent, ?_, rfl, ?_⟩
  · unfold DNode.parent parentLookup
    rw [h]
    rfl
  · rw [make_error_operations]
    exact List.getLast?_concat _

/-- Claim C4 witness: on the concrete root-element node of
`sampleDoc`, `parent()` fails `ExpectedElement` tagged `Parent`. -/
theorem parent_of_root_expectedElement_witness :
    ∃ e, rootNd.parent = .error e ∧ e.reason = .expectedElement ∧
      e.operations.getLast? = some .parent :=
  parent_of_root_expectedElement rootNd rfl

/-- Claim C10: `text_child(i)` with no child at `i` fails `NotFound`
with failing operation `Child i` (not `ChildText i`); with a non-text
child at `i` it fails `ExpectedText` with failing operation
`ChildText i`. -/
theorem text_child_error_taxonomy (n : DNode) (i : Nat) :
    (n.elem.children.get? i = none →
      ∃ e, n.text_child i = .error e ∧ e.reason = .notFound ∧
        e.operations.getLast? = some (.child i)) ∧
    (∀ c, n.elem.children.get? i = some c → c.asText = none →
      ∃ e, n.text_child i = .error e ∧ e.reason = .expectedText ∧
        e.operations.getLast? = some (.childText i)) := by
  constructor
  · intro h
    refine ⟨(Ctx.node n).make_error .notFound (.child i), ?_, rfl, ?_⟩
    · unfold DNode.text_child
      rw [h]
    · rw [make_error_operations]
      exact List.getLast?_concat _
  · intro c hc ht
    refine ⟨(Ctx.node n).make_error .expectedText (.childText i), ?_, rfl, ?_⟩
    · unfold DNode.text_child
      rw [hc]
      simp only [ht]
    · rw [make_error_operations]
      exact List.getLast?_concat _

/-- Claim C10 witness: on the concrete `ul` node, `text_child 5` fails
`NotFound` tagged `Child 5`, and `text_child 0` (an element child)
fails `ExpectedText` tagged `ChildText 0`. -/
theorem text_child_error_taxonomy_witness :
    (∃ e, ulNode.text_child 5 = .error e ∧ e.reason = .notFound ∧
      e.operations.getLast? = some (.child 5)) ∧
    (∃ e, ulNode.text_child 0 = .error e ∧ e.reason = .expectedText ∧
      e.operations.getLast? = some (.childText 0)) :=
  ⟨(text_child_error_taxonomy ulNode 5).1 rfl,
   (text_child_error_taxonomy ulNode 0).2 (liX "5") rfl rfl⟩

theorem itemsFrom_length (d : Doc) (src : Option DNode) (sel : String) :
    ∀ (ms : List (List Nat × HNode)) (i : Nat), (itemsFrom d src sel ms i).length = ms.length := by
  intro ms
  induction ms with
  | nil => intro i; rfl
  | cons m rest ih => intro i; simp [itemsFrom, ih]

theorem itemsFrom_get? (d : Doc) (src : Option DNode) (sel : String) :
    ∀ (ms : List (List Nat × HNode)) (i j : Nat) (nd : DNode),
      (itemsFrom d src sel ms i).get? j = some nd →
      ∃ m, ms.get? j = some m ∧ nd = mkDNode d src (.findAll sel (i + j)) m.1 m.2 := by
  intro ms
  induction ms with
  | nil => intro i j nd h; simp [itemsFrom] at h
  | cons m rest ih =>
      intro i j nd h
      cases j with
      | zero =>
          simp only [itemsFrom, List.get?] at h
          exact ⟨m, rfl, by cases h; rfl⟩
      | succ j =>
          simp only [itemsFrom, List.get?] at h
          obtain ⟨m₁, hm, hnd⟩ := ih (i + 1) j nd h
          refine ⟨m₁, hm, ?_⟩
          rw [hnd]
          have harith : i + 1 + j = i + (j + 1) := by omega
          rw [harith]

theorem collection_items_unfold (c : Collection) :
    c.items = (match c.next with
      | none => []
      | some nc => nc.1 :: nc.2.items) := by
  obtain ⟨d, src, sel, it, i⟩ := c
  cases it <;> rfl

/-- Claim C7: the `j`-th node yielded by a fresh `find_all(selector)`
collection (from a document or from a node) carries the operation
`FindAll { selector, index := j }`: the running index starts at 0 and
increments by one per yield, so it records the position in this
traversal. -/
theorem findAll_running_index (sel : String) :
    (∀ (d : Doc) (j : Nat) (nd : DNode),
        (d.find_all sel).items.get? j = some nd → nd.operation = .findAll sel j) ∧
    (∀ (n : DNode) (j : Nat) (nd : DNode),
        (n.find_all sel).items.get? j = some nd → nd.operation = .findAll sel j) := by
  constructor
  · intro d j nd h
    obtain ⟨m, _, hnd⟩ := itemsFrom_get? d none sel _ 0 j nd h
    rw [hnd, mkDNode_operation]
    simp
  · intro n j nd h
    obtain ⟨m, _, hnd⟩ := itemsFrom_get? n.document (some n) sel _ 0 j nd h
    rw [hnd, mkDNode_operation]
    simp

/-- Claim C7 witness: the second yield of `find_all "li"` on the
concrete document carries `FindAll { selector := "li", index := 1 }`. -/
theorem findAll_running_index_witness :
    ∃ nd, (sampleDoc.find_all "li").items.get? 1 = some nd ∧
      nd.operation = .findAll "li" 1 :=
  ⟨_, rfl, (findAll_running_index "li").1 sampleDoc 1 _ rfl⟩

/-- Claim C8: `find_all(S)` never fails (in the embedding it is a total
function into `Collection`); the number of nodes it yields equals the
number of elements matching `S` under the subtree; and two separate
`find_all(S)` calls on the same document or node yield equal result
sequences. -/
theorem findAll_count_and_repeatable (sel : String) :
    (∀ d : Doc, (d.find_all sel).items.length = (nodeMatches sel d.root).length) ∧
    (∀ n : DNode, (n.find_all sel).items.length = (nodeMatches sel n.elem).length) ∧
    (∀ (d : Doc) (c₁ c₂ : Collection), c₁ = d.find_all sel → c₂ = d.find_all sel →
        c₁.items = c₂.items) ∧
    (∀ (n : DNode) (c₁ c₂ : Collection), c₁ = n.find_all sel → c₂ = n.find_all sel →
        c₁.items = c₂.items) := by
  refine ⟨?_, ?_, ?_, ?_⟩
  · intro d
    exact itemsFrom_length d none sel _ 0
  · intro n
    rw [show (n.find_all sel).items
          = itemsFrom n.document (some n) sel ((nodeMatches sel n.elem).map
              (fun m => (n.path ++ m.1, m.2))) 0 from rfl]
    rw [itemsFrom_length]
    exact List.length_map _ _
  · intro d c₁ c₂ h₁ h₂
    rw [h₁, h₂]
  · intro n c₁ c₂ h₁ h₂
    rw [h₁, h₂]

/-- Claim C8 witness: on the concrete document, `find_all "li"` yields
exactly the 2 matching elements, and two separate calls agree. -/
theorem findAll_count_and_repeatable_witness :
    (sampleDoc.find_all "li").items.length = (nodeMatches "li" sampleDoc.root).length ∧
    (sampleDoc.find_all "li").items.length = 2 ∧
    (sampleDoc.find_all "li").items = (sampleDoc.find_all "li").items :=
  ⟨(findAll_count_and_repeatable "li").1 sampleDoc, rfl,
   (findAll_count_and_repeatable "li").2.2.1 sampleDoc _ _ rfl rfl⟩

/-- Claim C3: on a document or a node, with exactly one matching
element under the subtree `find(S)` succeeds with a node denoting that
element tagged `Find { selector }`; with zero matches it fails
`NotFound`; with two or more it fails `MultipleFound` — ambiguity is
never resolved by taking the first match. -/
theorem find_exactly_one_semantics (sel : String) :
    (∀ d : Doc,
      (∀ m, nodeMatches sel d.root = [m] →
          d.find sel = .ok (DNode.base d (.find sel) m.1 m.2)) ∧
      (nodeMatches sel d.root = [] →
          ∃ e, d.find sel = .error e ∧ e.reason = .notFound ∧
            e.operations.getLast? = some (.find sel)) ∧
      (2 ≤ (nodeMatches sel d.root).length →
          ∃ e, d.find sel = .error e ∧ e.reason = .multipleFound ∧
            e.operations.getLast? = some (.find sel))) ∧
    (∀ n : DNode,
      (∀ m, nodeMatches sel n.elem = [m] →
          n.find sel = .ok (DNode.step n.document n (.find sel) (n.path ++ m.1) m.2)) ∧
      (nodeMatches sel n.elem = [] →
          ∃ e, n.find sel = .error e ∧ e.reason = .notFound ∧
            e.operations.getLast? = some (.find sel)) ∧
      (2 ≤ (nodeMatches sel n.elem).length →
          ∃ e, n.find sel = .error e ∧ e.reason = .multipleFound ∧
            e.operations.getLast? = some (.find sel))) := by
  constructor
  · intro d
    refine ⟨?_, ?_, ?_⟩
    · intro m hm
      unfold Doc.find findCore
      simp [Doc.find_all, hm, mkDNode, Ctx.get_document, Ctx.get_as_source]
    · intro hm
      refine ⟨(Ctx.doc d).make_error .notFound (.find sel), ?_, rfl, ?_⟩
      · unfold Doc.find findCore
        simp [Doc.find_all, hm]
      · rw [make_error_operations]
        exact List.getLast?_concat _
    · intro hm
      rcases hms : nodeMatches sel d.root with _ | ⟨a, _ | ⟨b, rest⟩⟩
      · rw [hms] at hm; simp at hm
      · rw [hms] at hm; simp at hm
      · refine ⟨(Ctx.doc d).make_error .multipleFound (.find sel), ?_, rfl, ?_⟩
        · unfold Doc.find findCore
          simp [Doc.find_all, hms]
        · rw [make_error_operations]
          exact List.getLast?_concat _
  · intro n
    refine ⟨?_, ?_, ?_⟩
    · intro m hm
      unfold DNode.find findCore
      simp [DNode.find_all, hm, mkDNode, Ctx.get_document, Ctx.get_as_source]
    · intro hm
      refine ⟨(Ctx.node n).make_error .notFound (.find sel), ?_, rfl, ?_⟩
      · unfold DNode.find findCore
        simp [DNode.find_all, hm]
      · rw [make_error_operations]
        exact List.getLast?_concat _
    · intro hm
      rcases hms : nodeMatches sel n.elem with _ | ⟨a, _ | ⟨b, rest⟩⟩
      · rw [hms] at hm; simp at hm
      · rw [hms] at hm; simp at hm
      · refine ⟨(Ctx.node n).make_error .multipleFound (.find sel), ?_, rfl, ?_⟩
        · unfold DNode.find findCore
          simp [DNode.find_all, hms]
        · rw [make_error_operations]
          exact List.getLast?_concat _

/-- Claim C3 witness: on the concrete document, `find "ul"` (one
match) succeeds with the matching node, `find "div"` (no match) fails
`NotFound`, and `find "li"` (two matches) fails `MultipleFound`. -/
theorem find_exactly_one_semantics_witness :
    sampleDoc.find "ul" = .ok (DNode.base sampleDoc (.find "ul") [0] ulElem) ∧
    (∃ e, sampleDoc.find "div" = .error e ∧ e.reason = .notFound ∧
      e.operations.getLast? = some (.find "div")) ∧
    (∃ e, sampleDoc.find "li" = .error e ∧ e.reason = .multipleFound ∧
      e.operations.getLast? = some (.find "li")) :=
  ⟨((find_exactly_one_semantics "ul").1 sampleDoc).1 ([0], ulElem) rfl,
   ((find_exactly_one_semantics "div").1 sampleDoc).2.1 rfl,
   ((find_exactly_one_semantics "li").1 sampleDoc).2.2 (by decide)⟩

theorem findCore_ok_shape (c : Ctx) (fa : Collection) (sel : String) (n : DNode)
    (h : findCore c fa sel = .ok n) :
    ∃ m : List Nat × HNode, n = mkDNode c.get_document c.get_as_source (.find sel) m.1 m.2 := by
  unfold findCore at h
  split at h
  · simp only [Except.ok.injEq] at h
    exact ⟨_, h.symm⟩
  · simp at h
  · simp at h

theorem findFirstCore_ok_shape (c : Ctx) (fa : Collection) (sel : String) (n : DNode)
    (h : findFirstCore c fa sel = .ok n) :
    ∃ m : List Nat × HNode, n = mkDNode c.get_document c.get_as_source (.findFirst sel) m.1 m.2 := by
  unfold findFirstCore at h
  split at h
  · simp only [Except.ok.injEq] at h
    exact ⟨_, h.symm⟩
  · simp at h

theorem findNthCore_ok_shape (c : Ctx) (fa : Collection) (sel : String) (i : Nat) (n : DNode)
    (h : findNthCore c fa sel i = .ok n) :
    ∃ m : List Nat × HNode, n = mkDNode c.get_document c.get_as_source (.findNth sel i) m.1 m.2 := by
  unfold findNthCore at h
  split at h
  · simp only [Except.ok.injEq] at h
    exact ⟨_, h.symm⟩
  · simp at h

theorem child_ok_shape (m : DNode) (i : Nat) (n : DNode) (h : m.child i = .ok n) :
    ∃ e, n = mkDNode m.document (some m) (.child i) (m.path ++ [i]) e := by
  unfold DNode.child at h
  split at h
  · split at h
    · simp only [Except.ok.injEq] at h
      exact ⟨_, h.symm⟩
    · simp at h
  · simp at h

theorem parent_ok_shape (m : DNode) (n : DNode) (h : m.parent = .ok n) :
    ∃ pm : List Nat × HNode, n = mkDNode m.document (some m) .parent pm.1 pm.2 := by
  unfold DNode.parent at h
  split at h
  · split at h
    · simp only [Except.ok.injEq] at h
      exact ⟨_, h.symm⟩
    · simp at h
  · simp at h

theorem findAll_item_shape_doc (d : Doc) (sel : String) (j : Nat) (n : DNode)
    (h : (d.find_all sel).items.get? j = some n) :
    ∃ m : List Nat × HNode, n = mkDNode d none (.findAll sel j) m.1 m.2 := by
  obtain ⟨m, _, hnd⟩ := itemsFrom_get? d none sel _ 0 j n h
  rw [Nat.zero_add] at hnd
  exact ⟨m, hnd⟩

theorem findAll_item_shape_node (m : DNode) (sel : String) (j : Nat) (n : DNode)
    (h : (m.find_all sel).items.get? j = some n) :
    ∃ m₁ : List Nat × HNode, n = mkDNode m.document (some m) (.findAll sel j) m₁.1 m₁.2 := by
  obtain ⟨m₁, _, hnd⟩ := itemsFrom_get? m.document (some m) sel _ 0 j n h
  rw [Nat.zero_add] at hnd
  exact ⟨m₁, hnd⟩

theorem reaches_collectOps (d : Doc) (ops : List Operation) (n : DNode)
    (h : Reaches d ops n) : n.collectOps = ops := by
  induction h with
  | docFind sel n hok =>
      obtain ⟨m, rfl⟩ := findCore_ok_shape _ _ _ _ hok
      rw [mkDNode_collectOps]
      rfl
  | docFindFirst sel n hok =>
      obtain ⟨m, rfl⟩ := findFirstCore_ok_shape _ _ _ _ hok
      rw [mkDNode_collectOps]
      rfl
  | docFindNth sel i n hok =>
      obtain ⟨m, rfl⟩ := findNthCore_ok_shape _ _ _ _ _ hok
      rw [mkDNode_collectOps]
      rfl
  | docFindAllItem sel j n hok =>
      obtain ⟨m, rfl⟩ := findAll_item_shape_doc _ _ _ _ hok
      rw [mkDNode_collectOps]
      rfl
  | nodeFind ops m sel n hr hok ih =>
      obtain ⟨m₁, rfl⟩ := findCore_ok_shape _ _ _ _ hok
      rw [mkDNode_collectOps]
      show m.collectOps ++ _ = _
      rw [ih]
  | nodeFindFirst ops m sel n hr hok ih =>
      obtain ⟨m₁, rfl⟩ := findFirstCore_ok_shape _ _ _ _ hok
      rw [mkDNode_collectOps]
      show m.collectOps ++ _ = _
      rw [ih]
  | nodeFindNth ops m sel i n hr hok ih =>
      obtain ⟨m₁, rfl⟩ := findNthCore_ok_shape _ _ _ _ _ hok
      rw [mkDNode_collectOps]
      show m.collectOps ++ _ = _
      rw [ih]
  | nodeFindAllItem ops m sel j n hr hok ih =>
      obtain ⟨m₁, rfl⟩ := findAll_item_shape_node _ _ _ _ hok
      rw [mkDNode_collectOps]
      show m.collectOps ++ _ = _
      rw [ih]
  | nodeChild ops m i n hr hok ih =>
      obtain ⟨e, rfl⟩ := child_ok_shape _ _ _ hok
      rw [mkDNode_collectOps]
      show m.collectOps ++ _ = _
      rw [ih]
  | nodeParent ops m n hr hok ih =>
      obtain ⟨pm, rfl⟩ := parent_ok_shape _ _ hok
      rw [mkDNode_collectOps]
      show m.collectOps ++ _ = _
      rw [ih]

/-- Claim C1: for a node reached from the document root by a chain of
`k` successful query operations, an error raised at that node by any
failing method (all of which go through `Context::make_error` with the
failing operation) carries exactly those `k` chain operations in
root-to-leaf order followed by the failing operation — `k + 1`
operations in total. -/
theorem error_operations_chain (d : Doc) (ops : List Operation) (n : DNode)
    (h : Reaches d ops n) (r : Reason) (fop : Operation) :
    ((Ctx.node n).make_error r fop).operations = ops ++ [fop] ∧
    ((Ctx.node n).make_error r fop).operations.length = ops.length + 1 := by
  have hc : (Ctx.node n).collect_operations = ops := reaches_collectOps d ops n h
  constructor
  · rw [make_error_operations, hc]
  · rw [make_error_operations, hc]
    simp

/-- Claim C1 witness: the second `find_all "li"` yield under the `ul`
node of the concrete document is reached by 2 operations, and an error
raised there carries those 2 operations plus the failing one, in
root-to-leaf order. -/
theorem error_operations_chain_witness :
    ∃ nd, (ulNode.find_all "li").items.get? 1 = some nd ∧
      ((Ctx.node nd).make_error .notFound .text).operations
        = [.find "ul", .findAll "li" 1, .text] ∧
      ((Ctx.node nd).make_error .notFound .text).operations.length = 2 + 1 := by
  refine ⟨_, rfl, ?_⟩
  have hr : Reaches sampleDoc [Operation.find "ul", Operation.findAll "li" 1] _ :=
    Reaches.nodeFindAllItem sampleDoc [Operation.find "ul"] ulNode "li" 1 _
      (Reaches.docFind sampleDoc "ul" ulNode rfl) rfl
  have := error_operations_chain sampleDoc _ _ hr .notFound .text
  simpa using this

theorem chainElems_getLast (n : DNode) : n.chainElems.getLast? = some n.elem := by
  cases n with
  | base d op p e => rfl
  | step d s op p e => exact List.getLast?_concat _

theorem reaches_collectSnaps (d : Doc) (ops : List Operation) (n : DNode)
    (h : Reaches d ops n) :
    n.collectSnaps = d.root.html :: n.chainElems.map HNode.html ∧
    n.chainElems.length = ops.length := by
  induction h with
  | docFind sel n hok =>
      obtain ⟨m, rfl⟩ := findCore_ok_shape _ _ _ _ hok
      rw [mkDNode_collectSnaps, mkDNode_chainElems]
      exact ⟨rfl, rfl⟩
  | docFindFirst sel n hok =>
      obtain ⟨m, rfl⟩ := findFirstCore_ok_shape _ _ _ _ hok
      rw [mkDNode_collectSnaps, mkDNode_chainElems]
      exact ⟨rfl, rfl⟩
  | docFindNth sel i n hok =>
      obtain ⟨m, rfl⟩ := findNthCore_ok_shape _ _ _ _ _ hok
      rw [mkDNode_collectSnaps, mkDNode_chainElems]
      exact ⟨rfl, rfl⟩
  | docFindAllItem sel j n hok =>
      obtain ⟨m, rfl⟩ := findAll_item_shape_doc _ _ _ _ hok
      rw [mkDNode_collectSnaps, mkDNode_chainElems]
      exact ⟨rfl, rfl⟩
  | nodeFind ops m sel n hr hok ih =>
      obtain ⟨m₁, rfl⟩ := findCore_ok_shape _ _ _ _ hok
      rw [mkDNode_collectSnaps, mkDNode_chainElems]
      show m.collectSnaps ++ _ = _ ∧ (m.chainElems ++ _).length = _
      rw [ih.1]
      simp [ih.2, Ctx.get_as_source]
  | nodeFindFirst ops m sel n hr hok ih =>
      obtain ⟨m₁, rfl⟩ := findFirstCore_ok_shape _ _ _ _ hok
      rw [mkDNode_collectSnaps, mkDNode_chainElems]
      show m.collectSnaps ++ _ = _ ∧ (m.chainElems ++ _).length = _
      rw [ih.1]
      simp [ih.2, Ctx.get_as_source]
  | nodeFindNth ops m sel i n hr hok ih =>
      obtain ⟨m₁, rfl⟩ := findNthCore_ok_shape _ _ _ _ _ hok
      rw [mkDNode_collectSnaps, mkDNode_chainElems]
      show m.collectSnaps ++ _ = _ ∧ (m.chainElems ++ _).length = _
      rw [ih.1]
      simp [ih.2, Ctx.get_as_source]
  | nodeFindAllItem ops m sel j n hr hok ih =>
      obtain ⟨m₁, rfl⟩ := findAll_item_shape_node _ _ _ _ hok
      rw [mkDNode_collectSnaps, mkDNode_chainElems]
      show m.collectSnaps ++ _ = _ ∧ (m.chainElems ++ _).length = _
      rw [ih.1]
      simp [ih.2, Ctx.get_as_source]
  | nodeChild ops m i n hr hok ih =>
      obtain ⟨e, rfl⟩ := child_ok_shape _ _ _ hok
      rw [mkDNode_collectSnaps, mkDNode_chainElems]
      show m.collectSnaps ++ _ = _ ∧ (m.chainElems ++ _).length = _
      rw [ih.1]
      simp [ih.2, Ctx.get_as_source]
  | nodeParent ops m n hr hok ih =>
      obtain ⟨pm, rfl⟩ := parent_ok_shape _ _ hok
      rw [mkDNode_collectSnaps, mkDNode_chainElems]
      show m.collectSnaps ++ _ = _ ∧ (m.chainElems ++ _).length = _
      rw [ih.1]
      simp [ih.2, Ctx.get_as_source]

/-- Claim C6: an error raised at a node reached by a chain of `k` query
operations carries one snapshot per chain level in root-to-leaf order:
the rendering of the document root first, then the HTML rendering of
each chain node's subtree down to (and including) the failing
element. -/
theorem error_snapshots_chain (d : Doc) (ops : List Operation) (n : DNode)
    (h : Reaches d ops n) (r : Reason) (fop : Operation) :
    ((Ctx.node n).make_error r fop).snapshots
        = d.root.html :: n.chainElems.map HNode.html ∧
    n.chainElems.length = ops.length ∧
    n.chainElems.getLast? = some n.elem := by
  obtain ⟨hs, hl⟩ := reaches_collectSnaps d ops n h
  exact ⟨by rw [make_error_snapshots]; exact hs, hl, chainElems_getLast n⟩

/-- Claim C6 witness: an error raised at the `li` node reached by
`find "ul"` then `find_nth "li" 1` carries three snapshots — the root
rendering, the `ul` rendering, and the failing `li` rendering — in
root-to-leaf order. -/
theorem error_snapshots_chain_witness :
    ∃ nd, ulNode.find_nth "li" 1 = .ok nd ∧
      ((Ctx.node nd).make_error .notFound (.attr "href")).snapshots
        = [sampleDoc.root.html, ulElem.html, (liX "6").html] ∧
      nd.chainElems.length = 2 := by
  refine ⟨_, rfl, ?_⟩
  have hr : Reaches sampleDoc [Operation.find "ul", Operation.findNth "li" 1] _ :=
    Reaches.nodeFindNth sampleDoc [Operation.find "ul"] ulNode "li" 1 _
      (Reaches.docFind sampleDoc "ul" ulNode rfl) rfl
  have hc := error_snapshots_chain sampleDoc _ _ hr .notFound (.attr "href")
  exact ⟨hc.1, hc.2.1⟩

theorem dropWhile_head_not (p : Char → Bool) :
    ∀ l : List Char, ((l.dropWhile p).head?.any p) = false := by
  intro l
  induction l with
  | nil => rfl
  | cons c t ih =>
      by_cases h : p c
      · rw [List.dropWhile_cons, if_pos h]
        exact ih
      · rw [List.dropWhile_cons, if_neg h]
        simpa using h

theorem dropWhile_getLast (p : Char → Bool) :
    ∀ l : List Char, l.dropWhile p ≠ [] → (l.dropWhile p).getLast? = l.getLast? := by
  intro l
  induction l with
  | nil => intro h; simp at h
  | cons c t ih =>
      intro h
      by_cases hp : p c
      · rw [List.dropWhile_cons, if_pos hp] at h ⊢
        rw [ih h]
        cases t with
        | nil => simp [List.dropWhile] at h
        | cons b bt => rw [List.getLast?_cons_cons]
      · rw [List.dropWhile_cons, if_neg hp]

theorem trimChars_edges (cs : List Char) :
    ((trimChars cs).head?.any isWs) = false ∧ ((trimChars cs).getLast?.any isWs) = false := by
  unfold trimChars
  constructor
  · rw [List.head?_reverse]
    rcases hx : (cs.dropWhile isWs).reverse.dropWhile isWs with _ | ⟨c, t⟩
    · rfl
    · rw [← hx, dropWhile_getLast isWs _ (by rw [hx]; simp), List.getLast?_reverse]
      exact dropWhile_head_not isWs cs
  · rw [List.getLast?_reverse]
    exact dropWhile_head_not isWs _

theorem noEdgeWs_trimStr (s : String) : noEdgeWs (trimStr s) = true := by
  show (!((trimChars s.data).head?.any isWs) && !((trimChars s.data).getLast?.any isWs)) = true
  rw [(trimChars_edges s.data).1, (trimChars_edges s.data).2]
  rfl

/-- Claim C5: every extracted text value is trimmed of leading and
trailing whitespace before being returned — `text()`,
`text_multiline()` and `text_child(i)` all trim — with the one raw
exception being attribute text: `attr(key)` is the raw-attribute
accessor and hands back the stored attribute value unchanged.
Consequently `Text::parse::<i64>()` on an element whose text content is
`" 42 "` succeeds with 42 (the modelled `i64` parser itself rejects
surrounding whitespace, so the trim is what makes this succeed). -/
theorem extracted_text_trimmed (n : DNode) :
    noEdgeWs (n.text).value = true ∧
    noEdgeWs (n.text_multiline).value = true ∧
    (∀ i t, n.text_child i = .ok t → noEdgeWs t.value = true) ∧
    (∀ key v, n.elem.attrOf key = some v →
        n.attr key = .ok { document := n.document, source := n, operation := .attr key
                           value := v }) ∧
    (n.elem.textConcat = " 42 " → (n.text).parse parseI64 = .ok 42) := by
  refine ⟨noEdgeWs_trimStr _, noEdgeWs_trimStr _, ?_, ?_, ?_⟩
  · intro i t h
    unfold DNode.text_child at h
    split at h
    · split at h
      · simp only [Except.ok.injEq] at h
        rw [← h]
        exact noEdgeWs_trimStr _
      · simp at h
    · simp at h
  · intro key v h
    unfold DNode.attr
    rw [h]
  · intro h
    have hv : (n.text).value = "42" := by
      show trimStr n.elem.textConcat = "42"
      rw [h]
      decide
    unfold TextVal.parse
    rw [hv, show parseI64 "42" = .ok 42 by rfl]

/-- Claim C5 witness: on the concrete `<span pad=" x "> 42 </span>`
node, `text()` is trimmed, `text_child 0` is trimmed, `attr "pad"`
returns the raw `" x "`, and `parse::<i64>` on the `" 42 "` text
content succeeds with 42. -/
theorem extracted_text_trimmed_witness :
    noEdgeWs (numNode.text).value = true ∧
    (∃ t, numNode.text_child 0 = .ok t ∧ noEdgeWs t.value = true) ∧
    numNode.attr "pad"
      = .ok { document := sampleDoc, source := numNode, operation := .attr "pad"
              value := " x " } ∧
    (numNode.text).parse parseI64 = .ok 42 :=
  ⟨(extracted_text_trimmed numNode).1,
   ⟨_, rfl, (extracted_text_trimmed numNode).2.2.1 0 _ rfl⟩,
   (extracted_text_trimmed numNode).2.2.2.1 "pad" " x " rfl,
   (extracted_text_trimmed numNode).2.2.2.2 rfl⟩

theorem entLookup_append {K V : Type} [DecidableEq K] (es : List (K × V)) (k k₁ : K) (w : V) :
    entLookup (es ++ [(k₁, w)]) k =
      (match entLookup es k with
       | some v => some v
       | none => if k = k₁ then some w else none) := by
  induction es with
  | nil => rfl
  | cons e es ih =>
      obtain ⟨k₂, v₂⟩ := e
      by_cases h : k = k₂ <;> simp [entLookup, h, ih]

theorem runQueries_stored {K V : Type} [DecidableEq K] (k : K) (v : V) :
    ∀ (qs : List (K × (K → V))) (c : ArenaCache K V),
      entLookup c.entries k = some v →
      ∀ e ∈ (runQueries c qs).1, e.key = k → e.invoked = false ∧ e.value = v := by
  intro qs
  induction qs with
  | nil =>
      intro c hc e he
      simp [runQueries] at he
  | cons q qs ih =>
      obtain ⟨k₁, f⟩ := q
      intro c hc e he hk
      cases hl : entLookup c.entries k₁ with
      | none =>
          simp only [runQueries, ArenaCache.query, hl, List.mem_cons] at he
          rcases he with he | he
          · exfalso
            rw [he] at hk
            simp at hk
            rw [hk] at hl
            rw [hl] at hc
            cases hc
          · refine ih (ArenaCache.mk (c.entries ++ [(k₁, f k₁)])) ?_ e he hk
            show entLookup (c.entries ++ [(k₁, f k₁)]) k = some v
            rw [entLookup_append, hc]
      | some w =>
          simp only [runQueries, ArenaCache.query, hl, List.mem_cons] at he
          rcases he with he | he
          · rw [he] at hk ⊢
            simp at hk
            refine ⟨rfl, ?_⟩
            show w = v
            rw [hk] at hl
            rw [hl] at hc
            cases hc
            rfl
          · exact ih c hc e he hk

theorem runQueries_fresh {K V : Type} [DecidableEq K] (k : K) :
    ∀ (qs : List (K × (K → V))) (c : ArenaCache K V),
      entLookup c.entries k = none →
      ∀ h t, (runQueries c qs).1.filter (fun e => decide (e.key = k)) = h :: t →
        h.invoked = true ∧ ∀ e ∈ t, e.invoked = false ∧ e.value = h.value := by
  intro qs
  induction qs with
  | nil =>
      intro c hc h t ht
      simp [runQueries] at ht
  | cons q qs ih =>
      obtain ⟨k₁, f⟩ := q
      intro c hc h t ht
      by_cases hk : k₁ = k
      · subst hk
        simp only [runQueries, ArenaCache.query, hc, List.filter_cons, decide_eq_true_eq,
          if_pos] at ht
        rw [List.cons.injEq] at ht
        obtain ⟨hh, htt⟩ := ht
        subst hh
        subst htt
        refine ⟨rfl, ?_⟩
        intro e he
        have hmem := List.mem_filter.mp he
        have hkey : e.key = k₁ := by
          have h2 := hmem.2
          simpa using h2
        exact runQueries_stored k₁ (f k₁) qs (ArenaCache.mk (c.entries ++ [(k₁, f k₁)]))
          (by show entLookup (c.entries ++ [(k₁, f k₁)]) k₁ = some (f k₁)
              rw [entLookup_append, hc, if_pos rfl]) e hmem.1 hkey
      · cases hl : entLookup c.entries k₁ with
        | none =>
            simp only [runQueries, ArenaCache.query, hl, List.filter_cons] at ht
            rw [if_neg (by simp only [decide_eq_true_eq]; exact hk)] at ht
            refine ih (ArenaCache.mk (c.entries ++ [(k₁, f k₁)])) ?_ h t ht
            show entLookup (c.entries ++ [(k₁, f k₁)]) k = none
            rw [entLookup_append, hc]
            rw [if_neg (fun h₁ => hk h₁.symm)]
        | some w =>
            simp only [runQueries, ArenaCache.query, hl, List.filter_cons] at ht
            rw [if_neg (by simp only [decide_eq_true_eq]; exact hk)] at ht
            exact ih c hc h t ht

/-- Claim C2: over any sequence of queries on one cache (started
fresh), the computation closure runs at most once per distinct key: the
first query for a key invokes it and stores the result, and every
later query with the same key returns the stored value without
invoking the closure again.  The final two conjuncts state the
single-query contract: an absent key invokes the closure and stores
its result, a present key returns the stored value untouched. -/
theorem arena_cache_at_most_once {K V : Type} [DecidableEq K]
    (qs : List (K × (K → V))) (k : K) :
    (((runQueries (ArenaCache.new K V) qs).1.filter
        (fun e => decide (e.key = k) && e.invoked)).length ≤ 1) ∧
    (∀ h t, (runQueries (ArenaCache.new K V) qs).1.filter (fun e => decide (e.key = k)) = h :: t →
        h.invoked = true ∧ ∀ e ∈ t, e.invoked = false ∧ e.value = h.value) ∧
    (∀ (c : ArenaCache K V) (f : K → V),
        entLookup c.entries k = none →
        c.query k f = (f k, true, ArenaCache.mk (c.entries ++ [(k, f k)]))) ∧
    (∀ (c : ArenaCache K V) (f : K → V) (v : V),
        entLookup c.entries k = some v → c.query k f = (v, false, c)) := by
  have hfresh := runQueries_fresh k qs (ArenaCache.new K V) rfl
  refine ⟨?_, hfresh, ?_, ?_⟩
  · have hcomm : (fun (e : QueryEvent K V) => decide (e.key = k) && e.invoked)
        = fun e => e.invoked && decide (e.key = k) := by
      funext e
      exact Bool.and_comm _ _
    rw [hcomm, ← List.filter_filter]
    rcases hevk : (runQueries (ArenaCache.new K V) qs).1.filter
        (fun e => decide (e.key = k)) with _ | ⟨h, t⟩
    · rw [hevk]
      simp
    · obtain ⟨hh, htail⟩ := hfresh h t hevk
      rw [hevk, List.filter_cons, if_pos (by rw [hh])]
      have htf : t.filter (fun e => e.invoked) = [] := by
        rw [List.filter_eq_nil_iff]
        intro e he
        rw [(htail e he).1]
        simp
      rw [htf]
      simp
  · intro c f hc
    unfold ArenaCache.query
    rw [hc]
  · intro c f v hc
    unfold ArenaCache.query
    rw [hc]

/-- Claim C2 witness: running the concrete query sequence
`[(0, const 10), (0, const 20), (1, const 7)]` from a fresh cache, the
two key-0 events are one invoked computation returning 10 followed by a
non-invoked hit returning the stored 10. -/
theorem arena_cache_at_most_once_witness :
    (((runQueries (ArenaCache.new Nat Nat)
        [(0, fun _ => 10), (0, fun _ => 20), (1, fun _ => 7)]).1.filter
          (fun e => decide (e.key = 0) && e.invoked)).length ≤ 1) ∧
    ((⟨0, 10, true⟩ : QueryEvent Nat Nat).invoked = true ∧
      ∀ e ∈ [(⟨0, 10, false⟩ : QueryEvent Nat Nat)],
        e.invoked = false ∧ e.value = (⟨0, 10, true⟩ : QueryEvent Nat Nat).value) :=
by
  have heq : (runQueries (ArenaCache.new Nat Nat)
        [(0, fun _ => 10), (0, fun _ => 20), (1, fun _ => 7)]).1.filter
          (fun e => decide (e.key = 0))
      = [⟨0, 10, true⟩, ⟨0, 10, false⟩] := rfl
  exact ⟨(arena_cache_at_most_once [(0, fun _ => 10), (0, fun _ => 20), (1, fun _ => 7)] 0).1,
    (arena_cache_at_most_once [(0, fun _ => 10), (0, fun _ => 20), (1, fun _ => 7)] 0).2.1
      ⟨0, 10, true⟩ [⟨0, 10, false⟩] heq⟩

end Debris
